import Mathlib

/-!
Shallow embedding of the MoVi-project utilities (`common/utils.py`) and the
parts of its data model that the specification talks about: the pinhole-camera
projection, the MoCap-to-video adaptation pipeline, and the filename-based
dataset pairing.  Real-valued NumPy arithmetic is embedded over `ℚ`; the
float-to-int cast that NumPy performs when storing into an `int` array is
truncation toward zero, embedded as `ratTrunc`.
-/

set_option autoImplicit false

namespace MoVi

/-- A 3-vector of rationals (a row of a matrix, a world point, …). -/
structure V3 where
  x : ℚ
  y : ℚ
  z : ℚ
deriving DecidableEq, Repr

/-- A 3×3 matrix of rationals, stored by rows. -/
structure M3 where
  r0 : V3
  r1 : V3
  r2 : V3
deriving DecidableEq, Repr

/-- Row vector times 3×3 matrix: `v · m`. -/
def vecMat (v : V3) (m : M3) : V3 :=
  ⟨v.x * m.r0.x + v.y * m.r1.x + v.z * m.r2.x,
   v.x * m.r0.y + v.y * m.r1.y + v.z * m.r2.y,
   v.x * m.r0.z + v.y * m.r1.z + v.z * m.r2.z⟩

/-- The camera record (`common/camera.py` is a plain holder of the three
calibration arrays, as used by `common/utils.py`). -/
structure Camera where
  rotation_matrix : M3
  translation_vector : V3
  intrinsic_matrix : M3

/-- The 3×3 identity matrix. -/
def idM3 : M3 := ⟨⟨1, 0, 0⟩, ⟨0, 1, 0⟩, ⟨0, 0, 1⟩⟩

/-- The camera with identity rotation, zero translation and identity intrinsics. -/
def idCamera : Camera := ⟨idM3, ⟨0, 0, 0⟩, idM3⟩

/-- Truncation toward zero of a rational, the behaviour of the NumPy cast of a
float into an `int` array. -/
def ratTrunc (q : ℚ) : ℤ :=
  if 0 ≤ q then ⌊q⌋ else -⌊-q⌋

/-- The combined 4×3 camera matrix of `convert_world_points_to_image_points`:
`rotation_matrix` (3×3) stacked on top of `translation_vector` (1×3), then
right-multiplied by `intrinsic_matrix`.  Stored as its four rows. -/
def cameraMatrix (c : Camera) : V3 × V3 × V3 × V3 :=
  (vecMat c.rotation_matrix.r0 c.intrinsic_matrix,
   vecMat c.rotation_matrix.r1 c.intrinsic_matrix,
   vecMat c.rotation_matrix.r2 c.intrinsic_matrix,
   vecMat c.translation_vector c.intrinsic_matrix)

/-- The 3-vector `r = [p, 1] · M` computed for one world point inside the loop
of `convert_world_points_to_image_points`. -/
def resultVec (c : Camera) (p : V3) : V3 :=
  let m := cameraMatrix c
  ⟨p.x * m.1.x + p.y * m.2.1.x + p.z * m.2.2.1.x + m.2.2.2.x,
   p.x * m.1.y + p.y * m.2.1.y + p.z * m.2.2.1.y + m.2.2.2.y,
   p.x * m.1.z + p.y * m.2.1.z + p.z * m.2.2.1.z + m.2.2.2.z⟩

/-- The per-point body of `convert_world_points_to_image_points`:
`u = r₀/r₂`, `v = r₁/r₂`, stored truncated into the integer output array. -/
def projectPoint (c : Camera) (p : V3) : ℤ × ℤ :=
  let r := resultVec c p
  (ratTrunc (r.x / r.z), ratTrunc (r.y / r.z))

/-- Embedding of `convert_world_points_to_image_points` from `common/utils.py`: one output
image point per input world point, in order. -/
def convert_world_points_to_image_points (c : Camera) (world_points : List V3) :
    List (ℤ × ℤ) :=
  world_points.map (projectPoint c)

/-! ### Motion capture data and temporal resampling -/

/-- The motion-capture record built by `read_motion_capture_data`
(`common/motion_capture.py` holds the three fields). -/
structure MotionCapture where
  joints : List (List V3)
  skeleton : List ℕ
  fps : ℕ

/-- Pick every `stride`-th element starting at index 0; the countdown argument
says how many elements are still to be skipped before the next kept one. -/
def everyNthAux {α : Type} (stride : ℕ) : ℕ → List α → List α
  | _, [] => []
  | 0, f :: rest => f :: everyNthAux stride (stride - 1) rest
  | k + 1, _ :: rest => everyNthAux stride k rest

/-- Every `stride`-th element of a list, starting at index 0. -/
def everyNth {α : Type} (stride : ℕ) (l : List α) : List α :=
  everyNthAux stride 0 l

/-- Modelled from the spec: the source file `common/motion_capture.py` (method
`MotionCapture.get_joints_reduced_by_fps`) is not among the given sources.
Per the spec: stride = `native_fps / target_fps` rounded to the nearest
integer and at least 1; keep every `stride`-th frame of `joints` starting at
frame 0, selection only, no interpolation. -/
def get_joints_reduced_by_fps (m : MotionCapture) (fps : ℕ) : List (List V3) :=
  let stride := max 1 ((2 * m.fps + fps) / (2 * fps))
  everyNth stride m.joints

/-- The per-joint world trajectory `markers[:, i, :]` gathered by
`adapt_motion_data_for_video`. -/
def jointColumn (markers : List (List V3)) (i : ℕ) : List V3 :=
  markers.map (fun frame => frame.getD i ⟨0, 0, 0⟩)

/-- Embedding of `adapt_motion_data_for_video` from `common/utils.py`.  The `np.squeeze` on
`markers[:, i, :]` collapses the frame axis when there is exactly one
resampled frame, and the per-point `np.dot` inside
`convert_world_points_to_image_points` then raises `ValueError`; that crash is
embedded as `none`.  Otherwise the projected per-joint columns are assembled
back into the frame-major output array. -/
def adapt_motion_data_for_video (m : MotionCapture) (c : Camera) (fps : ℕ) :
    Option (List (List (ℤ × ℤ))) :=
  let markers := get_joints_reduced_by_fps m fps
  let jointCount := (markers.headD []).length
  if markers.length = 1 ∧ jointCount ≠ 0 then none
  else
    let cols := (List.range jointCount).map
      (fun i => convert_world_points_to_image_points c (jointColumn markers i))
    some ((List.range markers.length).map (fun f => cols.map (fun col => col.getD f (0, 0))))

/-! ### Filename parsing (`get_details_from_path`) -/

/-- The last path component: everything after the final `'/'`
(`pathlib.Path(path).name`). -/
def lastComponent (path : List Char) : List Char :=
  path.foldl (fun acc c => if c = '/' then [] else acc ++ [c]) []

/-- Drop everything up to and including the first `'.'`; `none` when there is
no dot.  Helper for `stem`, applied to the reversed file name. -/
def dropThroughDot : List Char → Option (List Char)
  | [] => none
  | c :: rest => if c = '.' then some rest else dropThroughDot rest

/-- Embedding of `pathlib.Path(path).stem`: the last component without its final
extension (a leading dot starts no extension). -/
def stem (path : List Char) : List Char :=
  let name := lastComponent path
  match dropThroughDot name.reverse with
  | none => name
  | some [] => name
  | some r => r.reverse

/-- Python `str.split('_')`: underscore-separated pieces, empty pieces kept. -/
def splitU : List Char → List (List Char)
  | [] => [[]]
  | c :: rest =>
    let r := splitU rest
    if c = '_' then [] :: r
    else
      match r with
      | [] => [[c]]
      | t :: ts => (c :: t) :: ts

/-- Python `str.isdigit`: nonempty and all digits. -/
def isDigits (s : List Char) : Bool :=
  !s.isEmpty && s.all Char.isDigit

/-- Python `int` on a digit string. -/
def digitsToNat (s : List Char) : ℕ :=
  s.foldl (fun a c => 10 * a + (c.toNat - 48)) 0

/-- Embedding of `get_details_from_path` from `common/utils.py`.  The indexing `numbers[0]`,
`numbers[1]` raises `IndexError` when the stem holds fewer than two
underscore-delimited numeric tokens (embedded as `none`); the name is the
positional slice `file_name[8:15]`, taken without any validation. -/
def get_details_from_path (path : List Char) : Option (List Char × ℕ × ℕ) :=
  let file_name := stem path
  let numbers := ((splitU file_name).filter isDigits).map digitsToNat
  match numbers with
  | n0 :: n1 :: _ => some ((file_name.drop 8).take 7, n0, n1)
  | _ => none

/-! ### The filter pattern of `read_dataset` and `re.match` -/

/-- An atom of the generated filter pattern: a regex `'.'` (any character
except newline) or a literal character. -/
inductive RAtom where
  | any : RAtom
  | lit : Char → RAtom
deriving DecidableEq

/-- Does one pattern atom match one character? -/
def atomMatch : RAtom → Char → Bool
  | .any, c => c != '\n'
  | .lit a, c => a == c

/-- Compile one character of the name slice, which `read_dataset` injects raw
into the pattern string, so every regex special keeps its regex meaning.
`'.'` compiles to the any-character atom; a plain character compiles to a
literal.  Any other regex special — `\ ^ $ * + ? [ ] | ( )` and the two
braces — either makes `re.compile` raise (an unbalanced `'('`, say) or gives
the pattern a non-literal meaning; the embedding models no such pattern and
maps all of them to the failure value, so each theorem about a successful run
speaks only about patterns the model matches exactly, and a failing
compilation is the embedded image of the `re.error` escaping from
`read_dataset`. -/
def charAtom (c : Char) : Option RAtom :=
  if c = '.' then some .any
  else if ['\\', '^', '$', '*', '+', '?', '\x7b', '\x7d', '[', ']', '|',
      '(', ')'].contains c then none
  else some (.lit c)

/-- Compile the whole interpolated name slice, atom by atom. -/
def compileName : List Char → Option (List RAtom)
  | [] => some []
  | c :: cs => do
    let a ← charAtom c
    let as ← compileName cs
    pure (a :: as)

/-- Match a token (list of atoms) against a prefix of `s`; on success return
the rest of `s`. -/
def tokMatch : List RAtom → List Char → Option (List Char)
  | [], s => some s
  | _ :: _, [] => none
  | a :: as, c :: cs => if atomMatch a c then tokMatch as cs else none

/-- Match `.*tok` against a prefix of `s` (`.*` absorbs any characters but
newlines). -/
def starTok (tok : List RAtom) : List Char → Bool
  | [] => (tokMatch tok []).isSome
  | c :: cs => (tokMatch tok (c :: cs)).isSome || (c != '\n' && starTok tok cs)

/-- Match the pattern `.* tok1 .* tok2` at the start of `s` (`re.match` is
anchored at the start only; the match may end before the end of `s`). -/
def patMatch (tok1 tok2 : List RAtom) : List Char → Bool
  | [] => (tokMatch tok1 []).elim false (starTok tok2)
  | c :: cs =>
    (tokMatch tok1 (c :: cs)).elim false (starTok tok2) ||
    (c != '\n' && patMatch tok1 tok2 cs)

/-- Decimal digits of a natural number, as Python str(n) produces them. -/
def natDigits (n : ℕ) : List Char :=
  Nat.toDigits 10 n

/-- The first token group of the pattern built by format in `read_dataset`
from (name, number, sub_number), namely `.*` then name, underscore, number,
underscore, then `.*` and the second group: `{name}_{number}_`.  Compiling it
fails when the raw-injected name slice holds a regex special, the embedded
image of `re.compile` raising. -/
def patTok1 (name : List Char) (number : ℕ) : Option (List RAtom) :=
  (compileName name).bind fun atoms =>
    some (atoms ++ [.lit '_'] ++ (natDigits number).map RAtom.lit ++ [.lit '_'])

/-- The second token group of the pattern: `_{sub_number}\.` (the `\.` is an
escaped, literal dot). -/
def patTok2 (sub_number : ℕ) : List RAtom :=
  [.lit '_'] ++ (natDigits sub_number).map RAtom.lit ++ [.lit '.']

/-- Does a video path match the pattern built from a parsed
(name, number, sub_number) triple?  Only a pattern that compiles matches
anything; `pairAll` separately propagates the compilation failure itself. -/
def detailsMatch (t : List Char × ℕ × ℕ) (video : List Char) : Bool :=
  match patTok1 t.1 t.2.1 with
  | none => false
  | some tok1 => patMatch tok1 (patTok2 t.2.2) video

/-! ### Dataset pairing (`read_dataset`) -/

/-- Is `b` a prefix of `s`? -/
def startsTok : List Char → List Char → Bool
  | [], _ => true
  | _ :: _, [] => false
  | a :: as, b :: bs => a == b && startsTok as bs

/-- Does `s` end with `ext`? -/
def endsWithExt (ext s : List Char) : Bool :=
  startsTok ext.reverse s.reverse

/-- Embedding of the glob call on the pattern `dir/*.ext` over a directory
listing: keeps the paths that
end in the extension and whose last component does not start with a dot
(the glob star never matches a leading dot). -/
def globFilter (ext : List Char) (paths : List (List Char)) : List (List Char) :=
  paths.filter (fun p => endsWithExt ext p && (lastComponent p).head? != some '.')

/-- The loop of `read_dataset` over the MoCap paths: parse each path, compile
the generated pattern, filter the video paths through it, and keep the pair
exactly when one video matches.  `none` embeds the two exceptions escaping
from the loop: the `IndexError` of `get_details_from_path`, and the
`re.error` that `re.compile` raises when the raw-injected name slice breaks
the pattern. -/
def pairAll (video_paths : List (List Char)) :
    List (List Char) → Option (List (List Char) × List (List Char))
  | [] => some ([], [])
  | p :: rest => do
    let t ← get_details_from_path p
    let _compiled ← patTok1 t.1 t.2.1
    let (vs, ms) ← pairAll video_paths rest
    match video_paths.filter (detailsMatch t) with
    | [v] => pure (v :: vs, p :: ms)
    | _ => pure (vs, ms)

/-- Embedding of `read_dataset` from `common/utils.py`, the two directory
listings passed in
place of the filesystem: glob to the `.avi` / `.npz` files, then pair each
MoCap file with the unique video file matching its pattern, skipping the MoCap
files with zero or several matches.  Returns `(videos_list,
motion_captures_list)`; `none` is a parse or pattern-compilation exception
escaping from the loop. -/
def read_dataset (videos_dir_files amass_dir_files : List (List Char)) :
    Option (List (List Char) × List (List Char)) :=
  pairAll (globFilter ".avi".toList videos_dir_files)
    (globFilter ".npz".toList amass_dir_files)

/-! ## Lemmas about the frame selection -/

theorem everyNthAux_getElem? {α : Type} (s : ℕ) (hs : 1 ≤ s) :
    ∀ (l : List α) (c k : ℕ), (everyNthAux s c l)[k]? = l[c + k * s]? := by
  intro l
  induction l with
  | nil => intro c k; simp [everyNthAux]
  | cons f rest ih =>
    intro c k
    match c with
    | 0 =>
      match k with
      | 0 => simp [everyNthAux]
      | k + 1 =>
        have h1 : 0 + (k + 1) * s = (s - 1 + k * s) + 1 := by
          rw [Nat.succ_mul]; omega
        rw [h1]
        simp only [everyNthAux, List.getElem?_cons_succ]
        exact ih (s - 1) k
    | c + 1 =>
      have h1 : c + 1 + k * s = (c + k * s) + 1 := by omega
      rw [h1]
      simp only [everyNthAux, List.getElem?_cons_succ]
      exact ih c k

theorem everyNthAux_length {α : Type} (s : ℕ) (hs : 1 ≤ s) :
    ∀ (l : List α) (c : ℕ), c ≤ s - 1 →
      (everyNthAux s c l).length = (l.length + (s - 1 - c)) / s := by
  intro l
  induction l with
  | nil =>
    intro c _
    simp only [everyNthAux, List.length_nil, Nat.zero_add]
    exact (Nat.div_eq_of_lt (by omega)).symm
  | cons f rest ih =>
    intro c hc
    match c with
    | 0 =>
      simp only [everyNthAux, List.length_cons]
      rw [ih (s - 1) (Nat.le_refl _)]
      have h2 : rest.length + 1 + (s - 1 - 0) = rest.length + s := by omega
      have h3 : rest.length + (s - 1 - (s - 1)) = rest.length := by omega
      rw [h2, h3, Nat.add_div_right _ (by omega : 0 < s)]
    | c + 1 =>
      simp only [everyNthAux, List.length_cons]
      rw [ih c (by omega)]
      congr 1
      omega

theorem everyNthAux_mem {α : Type} (s : ℕ) :
    ∀ (l : List α) (c : ℕ) (x : α), x ∈ everyNthAux s c l → x ∈ l := by
  intro l
  induction l with
  | nil => intro c x hx; simp [everyNthAux] at hx
  | cons f rest ih =>
    intro c x hx
    match c with
    | 0 =>
      simp only [everyNthAux, List.mem_cons] at hx
      rcases hx with h | h
      · exact h ▸ List.mem_cons_self f rest
      · exact List.mem_cons_of_mem f (ih (s - 1) x h)
    | c + 1 =>
      exact List.mem_cons_of_mem f (ih c x hx)

theorem everyNth_getElem? {α : Type} (s : ℕ) (hs : 1 ≤ s) (l : List α) (k : ℕ) :
    (everyNth s l)[k]? = l[k * s]? := by
  have h := everyNthAux_getElem? s hs l 0 k
  simpa [everyNth] using h

theorem everyNth_length {α : Type} (s : ℕ) (hs : 1 ≤ s) (l : List α) :
    (everyNth s l).length = (l.length + s - 1) / s := by
  have h := everyNthAux_length s hs l 0 (by omega)
  rw [everyNth, h]
  congr 1
  omega

/-! ## Claim theorems: resampling and the projection pipeline -/

/-- C3: resampling uses stride = native_fps / target_fps rounded to nearest
(at least 1) and returns exactly the frames at indices 0, stride, 2·stride, …,
so the output frame count is ⌈frames / stride⌉; in particular 120 frames at
native 120 Hz resampled to 30 Hz give the 30 frames at indices 0, 4, …, 116. -/
theorem resample_every_stride (m : MotionCapture) (fps : ℕ)
    (h1 : 0 < fps) (h2 : fps ≤ m.fps) :
    (get_joints_reduced_by_fps m fps).length =
      (m.joints.length + max 1 ((2 * m.fps + fps) / (2 * fps)) - 1) /
        max 1 ((2 * m.fps + fps) / (2 * fps)) ∧
    (∀ k : ℕ, (get_joints_reduced_by_fps m fps)[k]? =
      m.joints[k * max 1 ((2 * m.fps + fps) / (2 * fps))]?) ∧
    (m.fps = 120 → fps = 30 → m.joints.length = 120 →
      (get_joints_reduced_by_fps m fps).length = 30 ∧
      ∀ k : ℕ, (get_joints_reduced_by_fps m fps)[k]? = m.joints[k * 4]?) := by
  have hs : 1 ≤ max 1 ((2 * m.fps + fps) / (2 * fps)) := le_max_left _ _
  refine ⟨?_, ?_, ?_⟩
  · rw [get_joints_reduced_by_fps]
    exact everyNth_length _ hs m.joints
  · intro k
    rw [get_joints_reduced_by_fps]
    exact everyNth_getElem? _ hs m.joints k
  · intro hf ht _
    have h4 : max 1 ((2 * m.fps + fps) / (2 * fps)) = 4 := by
      rw [hf, ht]; decide
    constructor
    · rw [get_joints_reduced_by_fps, h4]
      rw [everyNth_length 4 (by omega) m.joints]
      omega
    · intro k
      rw [get_joints_reduced_by_fps, h4]
      exact everyNth_getElem? 4 (by omega) m.joints k

/-- Witness for C3 at a concrete 120-frame, 120 Hz sequence resampled to
30 Hz. -/
theorem resample_every_stride_witness :
    (get_joints_reduced_by_fps ⟨List.replicate 120 ([] : List V3), [], 120⟩ 30).length = 30 :=
  ((resample_every_stride ⟨List.replicate 120 [], [], 120⟩ 30 (by norm_num)
      (by norm_num)).2.2 rfl rfl (by simp)).1

/-- C4: the pipeline is claimed to return a (resampled frames × joints × 2)
array for every motion sequence; on a sequence whose resampled frame count is
1 the code instead crashes (`np.squeeze` collapses the frame axis of the
single-frame per-joint trajectory and the inner `np.dot` raises
`ValueError`) — the embedding returns the error value there. -/
theorem adapt_single_frame_crash :
    adapt_motion_data_for_video ⟨[[⟨0, 0, 1⟩]], [0], 120⟩ idCamera 30 = none := by
  decide

/-- C6 counterexample: on a motion sequence with zero joints the pipeline
does not fail — it returns a normal result (here 8 frames at 120 Hz resampled
to 30 Hz: two frames of zero joints each). -/
theorem adapt_zero_joints_cex :
    adapt_motion_data_for_video ⟨List.replicate 8 [], [], 120⟩ idCamera 30 =
      some [[], []] := by
  decide

/-- C6 amended: on a motion sequence all of whose frames have zero joints the
pipeline returns a normal result, one empty joint list per resampled frame,
and raises no error. -/
theorem adapt_zero_joints (m : MotionCapture) (c : Camera) (fps : ℕ)
    (h : ∀ fr ∈ m.joints, fr = ([] : List V3)) :
    adapt_motion_data_for_video m c fps =
      some ((get_joints_reduced_by_fps m fps).map fun _ => ([] : List (ℤ × ℤ))) := by
  have hm : ∀ fr ∈ get_joints_reduced_by_fps m fps, fr = ([] : List V3) := by
    intro fr hfr
    rw [get_joints_reduced_by_fps, everyNth] at hfr
    exact h fr (everyNthAux_mem _ _ _ _ hfr)
  have hhead : ((get_joints_reduced_by_fps m fps).headD []).length = 0 := by
    cases hmk : get_joints_reduced_by_fps m fps with
    | nil => simp
    | cons a t =>
      have : a ∈ get_joints_reduced_by_fps m fps := by
        rw [hmk]; exact List.mem_cons_self a t
      simp [hm a this]
  simp only [adapt_motion_data_for_video, hhead]
  simp [List.map_const']

/-- Witness for the amended C6 statement on a concrete 12-frame, 0-joint
sequence. -/
theorem adapt_zero_joints_witness :
    adapt_motion_data_for_video ⟨List.replicate 12 [], [], 120⟩ idCamera 30 =
      some [[], [], []] := by
  have h := adapt_zero_joints ⟨List.replicate 12 [], [], 120⟩ idCamera 30
    (fun fr hfr => List.eq_of_mem_replicate hfr)
  rw [h]
  decide

/-! ## Lemmas about the pairing loop -/

theorem pairAll_cons (vps : List (List Char)) (p : List Char) (rest : List (List Char)) :
    pairAll vps (p :: rest) =
      (get_details_from_path p).bind fun t =>
        (patTok1 t.1 t.2.1).bind fun _ =>
          (pairAll vps rest).bind fun pr =>
            match vps.filter (detailsMatch t) with
            | [v] => some (v :: pr.1, p :: pr.2)
            | _ => some pr := rfl

theorem pairAll_sublist (vps : List (List Char)) :
    ∀ (l vs ms : List (List Char)), pairAll vps l = some (vs, ms) →
      List.Sublist ms l := by
  intro l
  induction l with
  | nil =>
    intro vs ms h
    simp only [pairAll, Option.some_inj] at h
    injection h with h1 h2
    exact h2 ▸ List.nil_sublist _
  | cons p rest ih =>
    intro vs ms h
    rw [pairAll_cons] at h
    cases hd : get_details_from_path p with
    | none => rw [hd] at h; simp at h
    | some t =>
      rw [hd] at h
      simp only [Option.some_bind] at h
      cases hc : patTok1 t.1 t.2.1 with
      | none => rw [hc] at h; simp at h
      | some tok =>
        rw [hc] at h
        simp only [Option.some_bind] at h
        cases hrec : pairAll vps rest with
        | none => rw [hrec] at h; simp at h
        | some pr =>
          obtain ⟨vs', ms'⟩ := pr
          rw [hrec] at h
          simp only [Option.some_bind] at h
          rcases hfil : vps.filter (detailsMatch t) with - | ⟨v, - | ⟨v2, tl⟩⟩ <;>
              rw [hfil] at h <;> injection h with h <;> injection h with h1 h2
          · exact h2 ▸ (ih vs' ms' hrec).cons p
          · exact h2 ▸ (ih vs' ms' hrec).cons₂ p
          · exact h2 ▸ (ih vs' ms' hrec).cons p

theorem pairAll_mem_iff (vps : List (List Char)) :
    ∀ (l vs ms : List (List Char)), pairAll vps l = some (vs, ms) →
      ∀ (p : List Char) (t : List Char × ℕ × ℕ), get_details_from_path p = some t →
        (p ∈ ms ↔ p ∈ l ∧ (vps.filter (detailsMatch t)).length = 1) := by
  intro l
  induction l with
  | nil =>
    intro vs ms h p t _
    simp only [pairAll, Option.some_inj] at h
    injection h with h1 h2
    simp [← h2]
  | cons q rest ih =>
    intro vs ms h p t ht
    rw [pairAll_cons] at h
    cases hd : get_details_from_path q with
    | none => rw [hd] at h; simp at h
    | some tq =>
      rw [hd] at h
      simp only [Option.some_bind] at h
      cases hcp : patTok1 tq.1 tq.2.1 with
      | none => rw [hcp] at h; simp at h
      | some tok =>
        rw [hcp] at h
        simp only [Option.some_bind] at h
        cases hrec : pairAll vps rest with
        | none => rw [hrec] at h; simp at h
        | some pr =>
          obtain ⟨vs', ms'⟩ := pr
          rw [hrec] at h
          simp only [Option.some_bind] at h
          have hih := ih vs' ms' hrec p t ht
          by_cases hpq : p = q
          · subst hpq
            have htq : tq = t := by
              rw [hd] at ht
              injection ht
            subst htq
            rcases hfil : vps.filter (detailsMatch tq) with - | ⟨v, - | ⟨v2, tl⟩⟩
            · rw [hfil] at h hih
              injection h with h
              injection h with h1 h2
              subst h2
              simp only [List.length_nil] at hih ⊢
              constructor
              · intro hpm
                exact absurd (hih.mp hpm).2 (by omega)
              · intro hc
                exact absurd hc.2 (by omega)
            · rw [hfil] at h
              injection h with h
              injection h with h1 h2
              subst h2
              simp [hfil]
            · rw [hfil] at h hih
              injection h with h
              injection h with h1 h2
              subst h2
              simp only [List.length_cons] at hih ⊢
              constructor
              · intro hpm
                exact absurd (hih.mp hpm).2 (by omega)
              · intro hc
                exact absurd hc.2 (by omega)
          · rcases hfilq : vps.filter (detailsMatch tq) with - | ⟨w, - | ⟨w2, wtl⟩⟩ <;>
                rw [hfilq] at h <;> injection h with h <;> injection h with h1 h2 <;>
                subst h2 <;>
                simp only [List.mem_cons, hpq, false_or] <;>
                exact hih

theorem pairAll_aligned (vps : List (List Char)) :
    ∀ (l vs ms : List (List Char)), pairAll vps l = some (vs, ms) →
      vs.length = ms.length ∧
      ∀ (k : ℕ) (p : List Char), ms[k]? = some p →
        p ∈ l ∧ ∃ t, get_details_from_path p = some t ∧
          ∃ v, vs[k]? = some v ∧ vps.filter (detailsMatch t) = [v] := by
  intro l
  induction l with
  | nil =>
    intro vs ms h
    simp only [pairAll, Option.some_inj] at h
    injection h with h1 h2
    subst h1
    subst h2
    simp
  | cons q rest ih =>
    intro vs ms h
    rw [pairAll_cons] at h
    cases hd : get_details_from_path q with
    | none => rw [hd] at h; simp at h
    | some tq =>
      rw [hd] at h
      simp only [Option.some_bind] at h
      cases hcp : patTok1 tq.1 tq.2.1 with
      | none => rw [hcp] at h; simp at h
      | some tok =>
        rw [hcp] at h
        simp only [Option.some_bind] at h
        cases hrec : pairAll vps rest with
        | none => rw [hrec] at h; simp at h
        | some pr =>
          obtain ⟨vs', ms'⟩ := pr
          rw [hrec] at h
          simp only [Option.some_bind] at h
          obtain ⟨hlen, hget⟩ := ih vs' ms' hrec
          rcases hfilq : vps.filter (detailsMatch tq) with - | ⟨w, - | ⟨w2, wtl⟩⟩
          · rw [hfilq] at h
            injection h with h
            injection h with h1 h2
            subst h1
            subst h2
            refine ⟨hlen, ?_⟩
            intro k p hk
            obtain ⟨hpl, hrest⟩ := hget k p hk
            exact ⟨List.mem_cons_of_mem q hpl, hrest⟩
          · rw [hfilq] at h
            injection h with h
            injection h with h1 h2
            subst h1
            subst h2
            refine ⟨by simp [hlen], ?_⟩
            intro k p hk
            cases k with
            | zero =>
              simp only [List.getElem?_cons_zero, Option.some_inj] at hk
              subst hk
              exact ⟨List.mem_cons_self q rest, tq, hd, w, by simp, hfilq⟩
            | succ k =>
              simp only [List.getElem?_cons_succ] at hk ⊢
              obtain ⟨hpl, hrest⟩ := hget k p hk
              exact ⟨List.mem_cons_of_mem q hpl, hrest⟩
          · rw [hfilq] at h
            injection h with h
            injection h with h1 h2
            subst h1
            subst h2
            refine ⟨hlen, ?_⟩
            intro k p hk
            obtain ⟨hpl, hrest⟩ := hget k p hk
            exact ⟨List.mem_cons_of_mem q hpl, hrest⟩

theorem pairAll_isSome (vps : List (List Char)) :
    ∀ (l : List (List Char)),
      (∀ q ∈ l, ∃ t, get_details_from_path q = some t ∧ (patTok1 t.1 t.2.1).isSome) →
      (pairAll vps l).isSome := by
  intro l
  induction l with
  | nil => intro _; simp [pairAll]
  | cons q rest ih =>
    intro hall
    obtain ⟨tq, htq, hcq⟩ := hall q (List.mem_cons_self q rest)
    obtain ⟨tok, htok⟩ := Option.isSome_iff_exists.mp hcq
    have h1 := ih (fun r hr => hall r (List.mem_cons_of_mem q hr))
    obtain ⟨pr, hpr⟩ := Option.isSome_iff_exists.mp h1
    rw [pairAll_cons, htq]
    simp only [Option.some_bind]
    rw [htok]
    simp only [Option.some_bind]
    rw [hpr]
    simp only [Option.some_bind]
    rcases hfil : vps.filter (detailsMatch tq) with - | ⟨w, - | ⟨w2, wtl⟩⟩ <;> simp

/-! ## Claim theorems: dataset pairing -/

/-- C2 counterexample: a MoCap path whose stem parses — the name slice is
`(xyz_1_` — but whose raw-injected name breaks the generated pattern, so
`re.compile` raises and `read_dataset` fails even though zero videos match;
the claim instead promises silent exclusion with no error raised. -/
theorem pairing_error_cex :
    get_details_from_path "/a/abcdefgh(xyz_1_2.npz".toList =
      some ("(xyz_1_".toList, 1, 2) ∧
    read_dataset [] ["/a/abcdefgh(xyz_1_2.npz".toList] = none :=
  ⟨by decide, by decide⟩

/-- C2 amended: provided the pattern built from the parsed triple compiles
(the raw-injected name slice holds no regex special), a MoCap file is paired
exactly when exactly one globbed video path matches its pattern, and zero or
several matches exclude it silently; a run raises only when a MoCap filename
fails to parse or its name slice breaks the pattern, never from a match
count. -/
theorem pairing_exactly_one :
    (∀ (vfs afs vs ms : List (List Char)) (p : List Char)
        (t : List Char × ℕ × ℕ),
        read_dataset vfs afs = some (vs, ms) →
        p ∈ globFilter ".npz".toList afs →
        get_details_from_path p = some t →
        (patTok1 t.1 t.2.1).isSome →
        (p ∈ ms ↔
          ((globFilter ".avi".toList vfs).filter (detailsMatch t)).length = 1)) ∧
    (∀ vfs afs : List (List Char),
        (∀ q ∈ globFilter ".npz".toList afs,
          ∃ t, get_details_from_path q = some t ∧ (patTok1 t.1 t.2.1).isSome) →
        (read_dataset vfs afs).isSome) := by
  constructor
  · intro vfs afs vs ms p t hrun hp ht _
    rw [pairAll_mem_iff _ _ _ _ hrun p t ht]
    exact ⟨fun h => h.2, fun h => ⟨hp, h⟩⟩
  · intro vfs afs hall
    exact pairAll_isSome _ _ hall

/-- Witness for the amended C2 statement: a dataset with a single MoCap file
and a single uniquely matching video file, where the pair is indeed
produced. -/
theorem pairing_exactly_one_witness :
    "/a/F_amass_Subject_1_F_2.npz".toList ∈
      (["/a/F_amass_Subject_1_F_2.npz".toList] : List (List Char)) :=
  (pairing_exactly_one.1 ["/v/Subject_1_F_2.avi".toList]
    ["/a/F_amass_Subject_1_F_2.npz".toList]
    ["/v/Subject_1_F_2.avi".toList] ["/a/F_amass_Subject_1_F_2.npz".toList]
    "/a/F_amass_Subject_1_F_2.npz".toList ("Subject".toList, 1, 2)
    (by decide) (by decide) (by decide) (by decide)).mpr (by decide)

/-- C7 counterexample: two distinct MoCap files parse to the same
(name, subject, trial) triple, each has exactly one matching video — the same
one — and `read_dataset` returns that video path in two pairs. -/
theorem pairing_video_dup_cex :
    read_dataset ["/v/Subject_1_F_2.avi".toList]
      ["/a/F_amass_Subject_1_F_2.npz".toList, "/a/G_amass_Subject_1_F_2.npz".toList] =
      some (["/v/Subject_1_F_2.avi".toList, "/v/Subject_1_F_2.avi".toList],
            ["/a/F_amass_Subject_1_F_2.npz".toList, "/a/G_amass_Subject_1_F_2.npz".toList]) ∧
    ¬ ([ "/v/Subject_1_F_2.avi".toList,
         "/v/Subject_1_F_2.avi".toList ] : List (List Char)).Nodup := by
  constructor
  · decide
  · decide

/-- C7 amended: the MoCap coordinate of the output has no duplicates whenever
the globbed MoCap listing has none; the video coordinate may repeat. -/
theorem pairing_mocap_unique (vfs afs vs ms : List (List Char))
    (hrun : read_dataset vfs afs = some (vs, ms))
    (hnd : (globFilter ".npz".toList afs).Nodup) : ms.Nodup :=
  hnd.sublist (pairAll_sublist _ _ _ _ hrun)

/-- Witness for the amended C7 statement on a concrete one-pair dataset. -/
theorem pairing_mocap_unique_witness :
    (["/a/F_amass_Subject_1_F_2.npz".toList] : List (List Char)).Nodup :=
  pairing_mocap_unique ["/v/Subject_1_F_2.avi".toList]
    ["/a/F_amass_Subject_1_F_2.npz".toList]
    ["/v/Subject_1_F_2.avi".toList] ["/a/F_amass_Subject_1_F_2.npz".toList]
    (by decide) (by decide)

/-- C10: the two returned sequences have equal length and are positionally
aligned — the k-th returned video path is the unique `.avi` input path
matching the pattern built from the identifiers parsed from the k-th returned
MoCap path, which is one of the globbed `.npz` inputs. -/
theorem pairing_aligned_unique (vfs afs vs ms : List (List Char))
    (hrun : read_dataset vfs afs = some (vs, ms)) :
    vs.length = ms.length ∧
    ∀ (k : ℕ) (p : List Char), ms[k]? = some p →
      p ∈ globFilter ".npz".toList afs ∧
      ∃ t, get_details_from_path p = some t ∧
        ∃ v, vs[k]? = some v ∧
          (globFilter ".avi".toList vfs).filter (detailsMatch t) = [v] :=
  pairAll_aligned _ _ _ _ hrun

/-- Witness for C10 on a concrete one-pair dataset. -/
theorem pairing_aligned_unique_witness :
    (["/v/Subject_1_F_2.avi".toList] : List (List Char)).length =
      (["/a/F_amass_Subject_1_F_2.npz".toList] : List (List Char)).length :=
  (pairing_aligned_unique ["/v/Subject_1_F_2.avi".toList]
    ["/a/F_amass_Subject_1_F_2.npz".toList]
    ["/v/Subject_1_F_2.avi".toList] ["/a/F_amass_Subject_1_F_2.npz".toList]
    (by decide)).1

/-! ## Claim theorems: projection and filename parsing -/

/-- C1: the projection stacks `rotation_matrix` on `translation_vector`,
multiplies by `intrinsic_matrix`, and outputs the truncated ratios
(r₀/r₂, r₁/r₂) of r = [p, 1] · M; with the identity camera, (x, y, z) with
z ≠ 0 projects to (trunc(x/z), trunc(y/z)). -/
theorem projection_truncated_ratios :
    (∀ (c : Camera) (p : V3), (resultVec c p).z ≠ 0 →
        projectPoint c p =
          (ratTrunc ((resultVec c p).x / (resultVec c p).z),
           ratTrunc ((resultVec c p).y / (resultVec c p).z))) ∧
    (∀ x y z : ℚ, z ≠ 0 →
        convert_world_points_to_image_points idCamera [⟨x, y, z⟩] =
          [(ratTrunc (x / z), ratTrunc (y / z))]) := by
  constructor
  · intro c p _
    rfl
  · intro x y z _
    simp [convert_world_points_to_image_points, projectPoint, resultVec,
      cameraMatrix, idCamera, idM3, vecMat]

/-- Witness for C1 at the identity camera and the world point (7, −7, 2). -/
theorem projection_truncated_ratios_witness :
    convert_world_points_to_image_points idCamera [⟨7, -7, 2⟩] = [(3, -3)] := by
  have h := projection_truncated_ratios.2 7 (-7) 2 (by norm_num)
  rw [h]
  norm_num [ratTrunc]

/-- C5: at zero projective depth the code raises no error and emits no defined
sentinel — the embedded operation silently returns a value (the claim
describes intended behaviour the code does not implement). -/
theorem zero_depth_silent :
    resultVec idCamera ⟨1, 2, 0⟩ = ⟨1, 2, 0⟩ ∧
    convert_world_points_to_image_points idCamera [⟨1, 2, 0⟩] = [(0, 0)] := by
  constructor
  · norm_num [resultVec, cameraMatrix, idCamera, idM3, vecMat]
  · norm_num [convert_world_points_to_image_points, projectPoint, resultVec,
      cameraMatrix, idCamera, idM3, vecMat, ratTrunc]

/-- C8: one output image point per input world point, order preserved — the
k-th output is the projection of the k-th input. -/
theorem project_length_order :
    ∀ (c : Camera) (pts : List V3),
      (convert_world_points_to_image_points c pts).length = pts.length ∧
      ∀ k : ℕ, (convert_world_points_to_image_points c pts)[k]? =
        (pts[k]?).map (projectPoint c) := by
  intro c pts
  refine ⟨?_, ?_⟩
  · simp [convert_world_points_to_image_points]
  · intro k
    simp [convert_world_points_to_image_points, List.getElem?_map]

/-- C9 counterexample: the stem of `12_34.npz` contains no name token at all
(the positional slice [8:15] of the stem is empty), yet identifier extraction
does not fail — it returns the guessed triple ("", 12, 34). -/
theorem get_details_no_name_cex :
    get_details_from_path "12_34.npz".toList = some ([], 12, 34) := by
  decide

/-- C9 amended: extraction fails (the `IndexError` surfaces to the caller)
exactly when the stem holds fewer than two underscore-delimited numeric
tokens; the name is the unvalidated positional slice [8:15] of the stem, so a
missing or malformed name token never causes a failure. -/
theorem get_details_fails_iff :
    (∀ path : List Char,
        get_details_from_path path = none ↔
          ((splitU (stem path)).filter isDigits).length < 2) ∧
    (∀ (path : List Char) (t : List Char × ℕ × ℕ),
        get_details_from_path path = some t →
        t.1 = ((stem path).drop 8).take 7) := by
  constructor
  · intro path
    rcases hl : (splitU (stem path)).filter isDigits with - | ⟨a, - | ⟨b, l⟩⟩ <;>
      simp [get_details_from_path, hl]
  · intro path t h
    rcases hl : (splitU (stem path)).filter isDigits with - | ⟨a, - | ⟨b, l⟩⟩ <;>
      simp [get_details_from_path, hl] at h <;> simp [← h]

/-- Witness for the amended C9 statement: on a well-formed MoCap path the
returned name is the positional slice of the stem. -/
theorem get_details_fails_iff_witness :
    ("Subject".toList : List Char) =
      ((stem "/a/F_amass_Subject_1_F_2.npz".toList).drop 8).take 7 :=
  get_details_fails_iff.2 "/a/F_amass_Subject_1_F_2.npz".toList
    ("Subject".toList, 1, 2) (by decide)

end MoVi
